import Mathlib

/-!
Shallow embedding of the RBXSL/Key server (src/server.js, src/migrate.js).

The server keeps its state in two external stores:
  * a Redis set `unused_keys` (the Pool) plus `page_ttl:<id>` marker keys,
  * a Postgres database with tables `keys` (the catalog) and `issued_pages`
    (the Ledger).

We embed that state as a single `ServerState`. The nondeterminism of the
runtime is made explicit through parameters of each handler:
  * `popped`   — the value `redis.sPop` returned (`none` when the set is empty),
  * `fresh`    — the uuid chosen by `uuidv4()`,
  * `now`      — the timestamp `now()` used by Postgres,
  * `markerOk` — whether `redis.setEx` succeeded (a rejected promise throws),
  * `delOk`    — whether `redis.del` succeeded.
Row-level locking (`SELECT ... FOR UPDATE`) serializes redemption attempts on
one row, so concurrent executions are modelled as sequential interleavings of
the handlers.
-/

namespace KeyServer

/-- A row of the `issued_pages` table (see migrate.js):
`id UUID PRIMARY KEY, key_text TEXT NOT NULL, created_at, used BOOLEAN
DEFAULT false, used_at TIMESTAMP NULL, ip TEXT NULL, user_agent TEXT NULL`.
The `id` is the association-list key in `ServerState.pages`. -/
structure IssuedRow where
  key_text : String
  created_at : Nat
  used : Bool
  used_at : Option Nat
  ip : Option String
  user_agent : Option String
deriving DecidableEq

/-- The combined state of the two stores.
`pool` is the Redis set `unused_keys` (a set: `sAdd` never duplicates),
`pages` the `issued_pages` table keyed by uuid, `ttl` the set of page ids
having a live `page_ttl:<id>` Redis key, `keysCatalog` the `keys` table as
(key_text, deprecated) pairs, `adminToken` the `ADMIN_TOKEN` env variable
(`none` when unset). -/
structure ServerState where
  pool : List String
  pages : List (String × IssuedRow)
  ttl : List String
  keysCatalog : List (String × Bool)
  adminToken : Option String
deriving DecidableEq

/-- `SELECT ... FROM issued_pages WHERE id = $1`: the row for `id`, if any. -/
def getRow (pages : List (String × IssuedRow)) (id : String) : Option IssuedRow :=
  match pages with
  | [] => none
  | (i, r) :: rest => if i = id then some r else getRow rest id

/-- The column assignments of the `UPDATE` statement: `used = true,
used_at = now(), ip = $2, user_agent = $3`. -/
def stampRow (now : Nat) (reqIp reqUa : String) (r : IssuedRow) : IssuedRow :=
  { r with used := true, used_at := some now,
           ip := some reqIp, user_agent := some reqUa }

/-- `UPDATE issued_pages SET used = true, used_at = now(), ip = $2,
user_agent = $3 WHERE id = $1`: every row matching `id` is stamped. -/
def markUsed (now : Nat) (reqIp reqUa : String) :
    List (String × IssuedRow) → String → List (String × IssuedRow)
  | [], _ => []
  | (i, r) :: rest, id =>
    if i = id then (i, stampRow now reqIp reqUa r) :: markUsed now reqIp reqUa rest id
    else (i, r) :: markUsed now reqIp reqUa rest id

/-- Redis `SADD` / `SETEX` on a modelled set: adding a member that is already
present is a no-op. -/
def ttlAdd (s : List String) (id : String) : List String :=
  if id ∈ s then s else id :: s

/-- The specification of `redis.sPop` relative to the current set: it returns
`none` exactly when the set is empty, and otherwise some member of the set. -/
def sPopOk (pool : List String) (popped : Option String) : Prop :=
  match popped with
  | none => pool = []
  | some k => k ∈ pool

/-- JavaScript `a || b` on two possibly-undefined strings: an undefined or
empty string on the left falls through to the right operand. -/
def jsOr (a b : Option String) : Option String :=
  match a with
  | none => b
  | some s => if s = "" then b else some s

/-- The admin guard `if (!token || token !== process.env.ADMIN_TOKEN)`:
passes only when a non-empty token was supplied and strictly equals the
configured admin token. -/
def tokenOk (token admin : Option String) : Bool :=
  match token with
  | none => false
  | some t => if t = "" then false else decide (admin = some t)

/-- Outcome of `GET /claim`. -/
inductive ClaimResult where
  | noKeys
  | redirect (pageId : String)
  | serverError
deriving DecidableEq

/-- `GET /claim` (server.js lines 41-67). `redis.sPop` has already removed
`popped` from the set; `if (!poppedKey)` is true both for `null` and for the
empty string, answering 404 "No keys available". Otherwise a fresh uuid is
inserted into `issued_pages` with `used = false` (a primary-key conflict
would reject the query and reach the catch-all 500), then `redis.setEx` arms
the expiry marker; if that call rejects, the catch-all answers 500 — the
already-committed insert is not rolled back. On success the client is
redirected to `/key/<fresh>`. -/
def claimHandler (st : ServerState) (popped : Option String) (fresh : String)
    (now : Nat) (markerOk : Bool) : ClaimResult × ServerState :=
  match popped with
  | none => (ClaimResult.noKeys, st)
  | some k =>
    let st1 : ServerState := { st with pool := st.pool.erase k }
    if k = "" then (ClaimResult.noKeys, st1)
    else if (getRow st1.pages fresh).isSome then (ClaimResult.serverError, st1)
    else
      let row : IssuedRow := ⟨k, now, false, none, none, none⟩
      let st2 : ServerState := { st1 with pages := st1.pages ++ [(fresh, row)] }
      if markerOk then
        (ClaimResult.redirect fresh, { st2 with ttl := ttlAdd st2.ttl fresh })
      else (ClaimResult.serverError, st2)

/-- Outcome of `GET /key/:pageId`. -/
inductive RedeemResult where
  | notFound
  | alreadyConsumed
  | served (key_text : String)
  | serverError
deriving DecidableEq

/-- `GET /key/:pageId` (server.js lines 70-115). Inside a transaction the row
is selected `FOR UPDATE`; a missing row rolls back to 404, a `used` row rolls
back to 410. Otherwise the row is stamped used and the transaction commits.
Only then is `redis.del` issued for the ttl marker: if it rejects, the
catch-all answers 500 (the commit stands; the late `ROLLBACK` is a no-op), so
the key is not served. On success the key text from the selected row is
served. -/
def redeemHandler (st : ServerState) (pageId reqIp reqUa : String) (now : Nat)
    (delOk : Bool) : RedeemResult × ServerState :=
  match getRow st.pages pageId with
  | none => (RedeemResult.notFound, st)
  | some r =>
    if r.used then (RedeemResult.alreadyConsumed, st)
    else
      let st1 : ServerState := { st with pages := markUsed now reqIp reqUa st.pages pageId }
      if delOk then
        (RedeemResult.served r.key_text, { st1 with ttl := st1.ttl.erase pageId })
      else (RedeemResult.serverError, st1)

/-- Outcome of `POST /admin/seed-redis`. -/
inductive SeedResult where
  | unauthorized
  | noKeysInDb
  | seeded (count : Nat)
deriving DecidableEq

/-- The pipeline of `sAdd` calls: each non-deprecated catalog value is added
to the pool set, in order. -/
def addAll (pool : List String) (rows : List (String × Bool)) : List String :=
  match rows with
  | [] => pool
  | r :: rest => addAll (ttlAdd pool r.1) rest

/-- `POST /admin/seed-redis` (server.js lines 119-136). The token comes from
the `x-admin-token` header or, failing that, the request body; a missing or
wrong token answers 401 before any store is touched. Then all rows of
`SELECT key_text FROM keys WHERE deprecated = false` are `sAdd`-ed to the
pool; with no rows the handler answers "no keys in DB" without touching the
pool. -/
def seedRedis (st : ServerState) (headerTok bodyTok : Option String) :
    SeedResult × ServerState :=
  let token := jsOr headerTok bodyTok
  if tokenOk token st.adminToken then
    let rows := st.keysCatalog.filter (fun p => !p.2)
    if rows.isEmpty then (SeedResult.noKeysInDb, st)
    else (SeedResult.seeded rows.length, { st with pool := addAll st.pool rows })
  else (SeedResult.unauthorized, st)

/-- A row of the audit view served by `GET /admin/issued`. -/
structure InspectRow where
  id : String
  key_text : String
  used : Bool
  created_at : Nat
  used_at : Option Nat
  ip : Option String
deriving DecidableEq

/-- Outcome of `GET /admin/issued`. -/
inductive InspectResult where
  | unauthorized
  | rows (entries : List InspectRow)
deriving DecidableEq

/-- Projection of a ledger row to the audit view
(`SELECT id, key_text, used, created_at, used_at, ip`). -/
def toInspectRow (p : String × IssuedRow) : InspectRow :=
  ⟨p.1, p.2.key_text, p.2.used, p.2.created_at, p.2.used_at, p.2.ip⟩

/-- Insertion step of the `ORDER BY created_at DESC` sort. -/
def insertByCreated (x : InspectRow) : List InspectRow → List InspectRow
  | [] => [x]
  | y :: ys => if y.created_at ≤ x.created_at then x :: y :: ys
               else y :: insertByCreated x ys

/-- `ORDER BY created_at DESC` as an insertion sort. -/
def sortByCreatedDesc : List InspectRow → List InspectRow
  | [] => []
  | x :: xs => insertByCreated x (sortByCreatedDesc xs)

/-- `GET /admin/issued` (server.js lines 139-145). Only the `x-admin-token`
header is consulted; a missing or wrong token answers 401 before the query.
Otherwise the most recent 200 ledger rows are returned (`LIMIT 200`). -/
def adminIssued (st : ServerState) (headerTok : Option String) :
    InspectResult × ServerState :=
  if tokenOk headerTok st.adminToken then
    (InspectResult.rows ((sortByCreatedDesc (st.pages.map toInspectRow)).take 200), st)
  else (InspectResult.unauthorized, st)

/-- One client request, with its nondeterministic runtime parameters made
explicit. -/
inductive Op where
  | claim (popped : Option String) (fresh : String) (now : Nat) (markerOk : Bool)
  | redeem (pageId reqIp reqUa : String) (now : Nat) (delOk : Bool)
  | seed (headerTok bodyTok : Option String)
  | inspect (headerTok : Option String)
deriving DecidableEq

/-- Outcome of one request. -/
inductive Outcome where
  | claimed (r : ClaimResult)
  | redeemed (r : RedeemResult)
  | seededOut (r : SeedResult)
  | inspected (r : InspectResult)
deriving DecidableEq

/-- Dispatch one request against the current state. -/
def applyOp (st : ServerState) : Op → Outcome × ServerState
  | Op.claim popped fresh now markerOk =>
      let p := claimHandler st popped fresh now markerOk
      (Outcome.claimed p.1, p.2)
  | Op.redeem pageId reqIp reqUa now delOk =>
      let p := redeemHandler st pageId reqIp reqUa now delOk
      (Outcome.redeemed p.1, p.2)
  | Op.seed h b =>
      let p := seedRedis st h b
      (Outcome.seededOut p.1, p.2)
  | Op.inspect h =>
      let p := adminIssued st h
      (Outcome.inspected p.1, p.2)

/-- Run a sequence of requests, returning the final state. -/
def execOps (st : ServerState) : List Op → ServerState
  | [] => st
  | op :: rest => execOps (applyOp st op).2 rest

/-- Whether a request is a redemption of link `l` whose outcome delivered the
key. -/
def servedFor (l : String) (op : Op) (out : Outcome) : Bool :=
  match op, out with
  | Op.redeem pageId _ _ _ _, Outcome.redeemed (RedeemResult.served _) => pageId == l
  | _, _ => false

/-- How many requests of the trace deliver the key bound to link `l`. -/
def servedCount (st : ServerState) (ops : List Op) (l : String) : Nat :=
  match ops with
  | [] => 0
  | op :: rest =>
      let p := applyOp st op
      (if servedFor l op p.1 then 1 else 0) + servedCount p.2 rest l

/-- The `consumed` flag of link `l` (false when no row exists). -/
def rowUsed (st : ServerState) (l : String) : Bool :=
  match getRow st.pages l with
  | some r => r.used
  | none => false

/-- A sample unconsumed ledger row binding "L1" to the key "K1". -/
def rowK1 : IssuedRow := ⟨"K1", 0, false, none, none, none⟩

/-- A sample state: pool holds "K1", the ledger binds "L1" to "K1"
(unconsumed), the catalog lists "K1" as non-deprecated, admin token "T". -/
def stOne : ServerState := ⟨["K1"], [("L1", rowK1)], ["L1"], [("K1", false)], some "T"⟩

/-- A sample state whose pool holds exactly one key: the empty string. -/
def stEmptyKey : ServerState := ⟨[""], [], [], [], some "T"⟩

/-! ### Association-list lemmas -/

theorem getRow_append_some {p1 : List (String × IssuedRow)} {id : String}
    {r : IssuedRow} (p2 : List (String × IssuedRow)) (h : getRow p1 id = some r) :
    getRow (p1 ++ p2) id = some r := by
  induction p1 with
  | nil => simp [getRow] at h
  | cons hd tl ih =>
    obtain ⟨i, row⟩ := hd
    by_cases hi : i = id
    · simp [getRow, hi] at h ⊢; exact h
    · simp [getRow, hi] at h ⊢; exact ih h

theorem getRow_append_none {p1 : List (String × IssuedRow)} {id : String}
    (p2 : List (String × IssuedRow)) (h : getRow p1 id = none) :
    getRow (p1 ++ p2) id = getRow p2 id := by
  induction p1 with
  | nil => simp [getRow]
  | cons hd tl ih =>
    obtain ⟨i, row⟩ := hd
    by_cases hi : i = id
    · simp [getRow, hi] at h
    · simp [getRow, hi] at h ⊢; exact ih h

theorem getRow_markUsed_self (now : Nat) (a b : String)
    (pages : List (String × IssuedRow)) (id : String) :
    getRow (markUsed now a b pages id) id =
      (getRow pages id).map (stampRow now a b) := by
  induction pages with
  | nil => simp [getRow, markUsed]
  | cons hd tl ih =>
    obtain ⟨i, row⟩ := hd
    by_cases hi : i = id
    · simp [getRow, markUsed, hi]
    · simp [getRow, markUsed, hi, ih]

theorem getRow_markUsed_ne (now : Nat) (a b : String)
    (pages : List (String × IssuedRow)) {id x : String} (h : x ≠ id) :
    getRow (markUsed now a b pages id) x = getRow pages x := by
  have hidx : ¬ id = x := fun hc => h hc.symm
  induction pages with
  | nil => simp [getRow, markUsed]
  | cons hd tl ih =>
    obtain ⟨i, row⟩ := hd
    by_cases hi : i = id
    · simp [getRow, markUsed, hi, hidx, ih]
    · by_cases hx : i = x
      · simp [getRow, markUsed, hi, hx, h]
      · simp [getRow, markUsed, hi, hx, ih]

/-! ### State-shape lemmas for the individual handlers -/

theorem claimHandler_pages_of_used {st : ServerState} {l : String}
    (popped : Option String) (fresh : String) (now : Nat) (markerOk : Bool)
    (h : rowUsed st l = true) :
    rowUsed (claimHandler st popped fresh now markerOk).2 l = true := by
  cases popped with
  | none => simpa [claimHandler] using h
  | some k =>
    unfold rowUsed at h
    obtain ⟨r, hr, hu⟩ : ∃ r, getRow st.pages l = some r ∧ r.used = true := by
      cases hrow : getRow st.pages l with
      | none => rw [hrow] at h; simp at h
      | some r => rw [hrow] at h; exact ⟨r, rfl, h⟩
    by_cases hk : k = ""
    · simp [claimHandler, hk, rowUsed, hr, hu]
    · by_cases hf : (getRow st.pages fresh).isSome
      · simp [claimHandler, hk, hf, rowUsed, hr, hu]
      · have happ := getRow_append_some
          [(fresh, (⟨k, now, false, none, none, none⟩ : IssuedRow))] hr
        by_cases hm : markerOk
        · simp [claimHandler, hk, hf, hm, rowUsed, happ, hu]
        · simp [claimHandler, hk, hf, hm, rowUsed, happ, hu]

theorem redeemHandler_pages_of_used {st : ServerState} {l : String}
    (pageId a b : String) (now : Nat) (delOk : Bool)
    (h : rowUsed st l = true) :
    rowUsed (redeemHandler st pageId a b now delOk).2 l = true := by
  cases hrow : getRow st.pages pageId with
  | none => simpa [redeemHandler, hrow] using h
  | some r =>
    by_cases hu : r.used
    · simpa [redeemHandler, hrow, hu] using h
    · by_cases hpl : pageId = l
      · subst hpl
        have h' : r.used = true := by simpa [rowUsed, hrow] using h
        simp [h'] at hu
      · have hne : l ≠ pageId := fun hc => hpl hc.symm
        have hkeep := getRow_markUsed_ne now a b st.pages hne
        by_cases hd : delOk
        · simpa [redeemHandler, hrow, hu, hd, rowUsed, hkeep] using h
        · simpa [redeemHandler, hrow, hu, hd, rowUsed, hkeep] using h

theorem seedRedis_state_pages (st : ServerState) (h b : Option String) :
    (seedRedis st h b).2.pages = st.pages := by
  by_cases ht : tokenOk (jsOr h b) st.adminToken = true
  · by_cases he : (st.keysCatalog.filter (fun p => !p.2)).isEmpty = true
    · simp [seedRedis, ht, he]
    · simp [seedRedis, ht, he]
  · simp [seedRedis, ht]

theorem adminIssued_state (st : ServerState) (h : Option String) :
    (adminIssued st h).2 = st := by
  by_cases ht : tokenOk h st.adminToken = true
  · simp [adminIssued, ht]
  · simp [adminIssued, ht]

theorem applyOp_used_mono {st : ServerState} {l : String} (op : Op)
    (h : rowUsed st l = true) : rowUsed (applyOp st op).2 l = true := by
  cases op with
  | claim popped fresh now markerOk =>
      simpa [applyOp] using claimHandler_pages_of_used popped fresh now markerOk h
  | redeem pageId a b now delOk =>
      simpa [applyOp] using redeemHandler_pages_of_used pageId a b now delOk h
  | seed ht bt =>
      simpa [applyOp, rowUsed, seedRedis_state_pages] using h
  | inspect ht =>
      simpa [applyOp, adminIssued_state] using h

theorem execOps_used_mono {st : ServerState} {l : String} (ops : List Op)
    (h : rowUsed st l = true) : rowUsed (execOps st ops) l = true := by
  induction ops generalizing st with
  | nil => simpa [execOps] using h
  | cons op rest ih => exact ih (applyOp_used_mono op h)

/-! ### What a successful redemption entails -/

theorem redeem_served_inv {st : ServerState} {pageId a b : String} {now : Nat}
    {delOk : Bool} {k : String}
    (h : (redeemHandler st pageId a b now delOk).1 = RedeemResult.served k) :
    rowUsed st pageId = false ∧
    rowUsed (redeemHandler st pageId a b now delOk).2 pageId = true ∧
    (getRow st.pages pageId).map IssuedRow.key_text = some k ∧ delOk = true := by
  cases hrow : getRow st.pages pageId with
  | none => simp [redeemHandler, hrow] at h
  | some r =>
    by_cases hu : r.used
    · simp [redeemHandler, hrow, hu] at h
    · by_cases hd : delOk
      · have hk : r.key_text = k := by
          simpa [redeemHandler, hrow, hu, hd] using h
        refine ⟨by simp [rowUsed, hrow, hu], ?_, by simp [hrow, hk], hd⟩
        simp [redeemHandler, hrow, hu, hd, rowUsed, stampRow,
              getRow_markUsed_self now a b st.pages pageId]
      · simp [redeemHandler, hrow, hu, hd] at h

theorem servedFor_inv {l : String} {op : Op} {out : Outcome}
    (h : servedFor l op out = true) :
    ∃ a b now delOk k, op = Op.redeem l a b now delOk ∧
      out = Outcome.redeemed (RedeemResult.served k) := by
  cases op with
  | redeem pageId a b now delOk =>
    cases out with
    | redeemed r =>
      cases r with
      | served k =>
        have : pageId = l := by
          have := h
          simp [servedFor] at this
          exact this
        exact ⟨a, b, now, delOk, k, by rw [this], rfl⟩
      | notFound => simp [servedFor] at h
      | alreadyConsumed => simp [servedFor] at h
      | serverError => simp [servedFor] at h
    | claimed r => simp [servedFor] at h
    | seededOut r => simp [servedFor] at h
    | inspected r => simp [servedFor] at h
  | claim popped fresh now markerOk => simp [servedFor] at h
  | seed ht bt => simp [servedFor] at h
  | inspect ht => simp [servedFor] at h

theorem servedCount_zero_of_used {st : ServerState} {l : String} (ops : List Op)
    (h : rowUsed st l = true) : servedCount st ops l = 0 := by
  induction ops generalizing st with
  | nil => simp [servedCount]
  | cons op rest ih =>
    have hnot : servedFor l op (applyOp st op).1 = false := by
      cases hs : servedFor l op (applyOp st op).1 with
      | false => rfl
      | true =>
        obtain ⟨a, b, now, delOk, k, hop, hout⟩ := servedFor_inv hs
        subst hop
        have hserved : (redeemHandler st l a b now delOk).1 = RedeemResult.served k := by
          have := hout
          simp [applyOp] at this
          exact this
        have := (redeem_served_inv hserved).1
        rw [h] at this
        exact absurd this (by simp)
    simp [servedCount, hnot, ih (applyOp_used_mono op h)]

theorem servedCount_le_one (st : ServerState) (ops : List Op) (l : String) :
    servedCount st ops l ≤ 1 := by
  induction ops generalizing st with
  | nil => simp [servedCount]
  | cons op rest ih =>
    cases hs : servedFor l op (applyOp st op).1 with
    | false => simpa [servedCount, hs] using ih (applyOp st op).2
    | true =>
      obtain ⟨a, b, now, delOk, k, hop, hout⟩ := servedFor_inv hs
      subst hop
      have hserved : (redeemHandler st l a b now delOk).1 = RedeemResult.served k := by
        have := hout
        simp [applyOp] at this
        exact this
      have hafter : rowUsed (applyOp st (Op.redeem l a b now delOk)).2 l = true := by
        simpa [applyOp] using (redeem_served_inv hserved).2.1
      simp [servedCount, hs, servedCount_zero_of_used rest hafter]

/-! ### Pool-seeding lemmas -/

theorem mem_ttlAdd {v w : String} {s : List String} :
    v ∈ ttlAdd s w ↔ v ∈ s ∨ v = w := by
  by_cases hw : w ∈ s
  · simp only [ttlAdd, if_pos hw]
    exact ⟨Or.inl, fun h => h.elim id (fun hv => hv ▸ hw)⟩
  · simp [ttlAdd, hw, List.mem_cons, or_comm]

theorem ttlAdd_of_mem {w : String} {s : List String} (h : w ∈ s) :
    ttlAdd s w = s := by
  simp [ttlAdd, h]

theorem mem_addAll {v : String} (pool : List String)
    (rows : List (String × Bool)) :
    v ∈ addAll pool rows ↔ v ∈ pool ∨ v ∈ rows.map Prod.fst := by
  induction rows generalizing pool with
  | nil => simp [addAll]
  | cons r rest ih =>
    calc v ∈ addAll pool (r :: rest)
        ↔ v ∈ ttlAdd pool r.1 ∨ v ∈ rest.map Prod.fst := by
          simpa [addAll] using ih (ttlAdd pool r.1)
      _ ↔ (v ∈ pool ∨ v = r.1) ∨ v ∈ rest.map Prod.fst := by rw [mem_ttlAdd]
      _ ↔ v ∈ pool ∨ v ∈ (r :: rest).map Prod.fst := by
          simp [List.mem_cons, or_assoc]

theorem addAll_of_all_mem {pool : List String} {rows : List (String × Bool)}
    (h : ∀ r ∈ rows, r.1 ∈ pool) : addAll pool rows = pool := by
  induction rows with
  | nil => simp [addAll]
  | cons r rest ih =>
    have hr : r.1 ∈ pool := h r (List.mem_cons_self r rest)
    have : addAll pool (r :: rest) = addAll (ttlAdd pool r.1) rest := by
      simp [addAll]
    rw [this, ttlAdd_of_mem hr]
    exact ih (fun x hx => h x (List.mem_cons_of_mem r hx))

theorem mem_filter_map_fst {v : String} {catalog : List (String × Bool)} :
    v ∈ (catalog.filter (fun p => !p.2)).map Prod.fst ↔ (v, false) ∈ catalog := by
  constructor
  · rintro h
    obtain ⟨⟨x, bb⟩, hmem, hfst⟩ := List.mem_map.mp h
    obtain ⟨hc, hb⟩ := List.mem_filter.mp hmem
    have hbb : bb = false := by simpa using hb
    rw [← hfst]
    rw [hbb] at hc
    exact hc
  · intro h
    exact List.mem_map.mpr ⟨(v, false), List.mem_filter.mpr ⟨h, by simp⟩, rfl⟩

theorem tokenOk_false_of_bad {tok admin : Option String}
    (h : tok = none ∨ ∃ t, tok = some t ∧ admin ≠ some t) :
    tokenOk tok admin = false := by
  rcases h with h | ⟨t, ht, hne⟩
  · rw [h]; rfl
  · rw [ht]
    by_cases h0 : t = ""
    · simp [tokenOk, h0]
    · simp [tokenOk, h0, hne]

/-! ### Claim theorems -/

/-- C1: for every IssuedLink record the `consumed` (`used`) flag transitions
false→true at most once and never reverts along any trace of requests, and
the bound `key_value` is delivered to a `redeem(link_id)` caller only on the
call performing that transition (which also returns exactly the bound key),
so the key is served at most once across the lifetime of the record. -/
theorem consumed_once_key_served_once (st : ServerState) (ops : List Op)
    (l : String) :
    servedCount st ops l ≤ 1 ∧
    (rowUsed st l = true → rowUsed (execOps st ops) l = true) ∧
    (∀ a b now delOk k,
        (redeemHandler st l a b now delOk).1 = RedeemResult.served k →
        rowUsed st l = false ∧
        rowUsed (redeemHandler st l a b now delOk).2 l = true ∧
        (getRow st.pages l).map IssuedRow.key_text = some k) :=
  ⟨servedCount_le_one st ops l, execOps_used_mono ops,
   fun a b now delOk k h =>
     ⟨(redeem_served_inv h).1, (redeem_served_inv h).2.1,
      (redeem_served_inv h).2.2.1⟩⟩

/-- Witness for C1 at a concrete state and trace: two racing redemptions of
"L1" serve the key exactly once, the serving call saw `used = false`, left
`used = true`, and returned the bound key "K1". -/
theorem consumed_once_key_served_once_w :
    servedCount stOne
      [Op.redeem "L1" "1.1.1.1" "A" 1 true, Op.redeem "L1" "2.2.2.2" "B" 2 true]
      "L1" ≤ 1 ∧
    rowUsed stOne "L1" = false ∧
    rowUsed (redeemHandler stOne "L1" "1.1.1.1" "A" 1 true).2 "L1" = true := by
  have h := consumed_once_key_served_once stOne
    [Op.redeem "L1" "1.1.1.1" "A" 1 true, Op.redeem "L1" "2.2.2.2" "B" 2 true] "L1"
  have h3 := (consumed_once_key_served_once stOne [] "L1").2.2
    "1.1.1.1" "A" 1 true "K1" (by decide)
  exact ⟨h.1, h3.1, h3.2.1⟩

/-- C2: for a link bound to an unconsumed key, two racing `redeem` calls are
linearized by the `SELECT ... FOR UPDATE` row lock; modelling the race as the
two serial orders the lock permits, the first call serves the bound key and
the second observes AlreadyConsumed — exactly one caller receives the key. -/
theorem redeem_race_linearized (st : ServerState) (l a1 b1 a2 b2 : String)
    (t1 t2 : Nat) (r : IssuedRow)
    (hrow : getRow st.pages l = some r) (hu : r.used = false) :
    (redeemHandler st l a1 b1 t1 true).1 = RedeemResult.served r.key_text ∧
    (redeemHandler (redeemHandler st l a1 b1 t1 true).2 l a2 b2 t2 true).1 =
      RedeemResult.alreadyConsumed := by
  constructor
  · simp [redeemHandler, hrow, hu]
  · have h2 : getRow (redeemHandler st l a1 b1 t1 true).2.pages l =
        some (stampRow t1 a1 b1 r) := by
      simp [redeemHandler, hrow, hu, getRow_markUsed_self]
    have h3 : (stampRow t1 a1 b1 r).used = true := by simp [stampRow]
    generalize hst : (redeemHandler st l a1 b1 t1 true).2 = st1 at h2 ⊢
    simp [redeemHandler, h2, h3]

/-- Witness for C2: in the concrete state `stOne`, the first of two
redemptions of "L1" serves "K1", the second answers AlreadyConsumed. -/
theorem redeem_race_linearized_w :
    (redeemHandler stOne "L1" "1.1.1.1" "A" 1 true).1 =
      RedeemResult.served "K1" ∧
    (redeemHandler (redeemHandler stOne "L1" "1.1.1.1" "A" 1 true).2
      "L1" "2.2.2.2" "B" 2 true).1 = RedeemResult.alreadyConsumed :=
  redeem_race_linearized stOne "L1" "1.1.1.1" "A" "2.2.2.2" "B" 1 2 rowK1
    (by decide) (by decide)

/-- C4: `redeem` answers NotFound iff no ledger row exists for the link,
AlreadyConsumed iff the row exists with `used = true`; both error cases roll
back leaving the whole state unchanged; otherwise the row is stamped
`used = true, used_at, ip, user_agent` and committed. -/
theorem redeem_outcome_cases (st : ServerState) (l a b : String) (now : Nat)
    (delOk : Bool) :
    ((redeemHandler st l a b now delOk).1 = RedeemResult.notFound ↔
      getRow st.pages l = none) ∧
    ((redeemHandler st l a b now delOk).1 = RedeemResult.alreadyConsumed ↔
      ∃ r, getRow st.pages l = some r ∧ r.used = true) ∧
    ((redeemHandler st l a b now delOk).1 = RedeemResult.notFound ∨
     (redeemHandler st l a b now delOk).1 = RedeemResult.alreadyConsumed →
      (redeemHandler st l a b now delOk).2 = st) ∧
    (∀ r, getRow st.pages l = some r → r.used = false →
      getRow (redeemHandler st l a b now delOk).2.pages l =
        some (stampRow now a b r)) := by
  cases hrow : getRow st.pages l with
  | none =>
    refine ⟨by simp [redeemHandler, hrow], by simp [redeemHandler, hrow],
            by simp [redeemHandler, hrow], ?_⟩
    intro r hr
    simp [hrow] at hr
  | some r =>
    by_cases hu : r.used = true
    · refine ⟨by simp [redeemHandler, hrow, hu], ?_,
              by simp [redeemHandler, hrow, hu], ?_⟩
      · exact ⟨fun _ => ⟨r, rfl, hu⟩, fun _ => by simp [redeemHandler, hrow, hu]⟩
      · intro r' hr' hu'
        rw [Option.some_inj] at hr'
        rw [← hr'] at hu'
        rw [hu] at hu'
        exact absurd hu' (by simp)
    · have hget := getRow_markUsed_self now a b st.pages l
      by_cases hd : delOk = true
      · refine ⟨by simp [redeemHandler, hrow, hu, hd],
                by simp [redeemHandler, hrow, hu, hd],
                by simp [redeemHandler, hrow, hu, hd], ?_⟩
        intro r' hr' _
        rw [Option.some_inj] at hr'
        subst hr'
        simp [redeemHandler, hrow, hu, hd, hget]
      · refine ⟨by simp [redeemHandler, hrow, hu, hd],
                by simp [redeemHandler, hrow, hu, hd],
                by simp [redeemHandler, hrow, hu, hd], ?_⟩
        intro r' hr' _
        rw [Option.some_inj] at hr'
        subst hr'
        simp [redeemHandler, hrow, hu, hd, hget]

/-- Witness for C4: an unknown link answers NotFound and leaves the state
unchanged, and redeeming the live link "L1" stamps its row. -/
theorem redeem_outcome_cases_w :
    (redeemHandler stOne "nope" "i" "u" 3 true).1 = RedeemResult.notFound ∧
    (redeemHandler stOne "nope" "i" "u" 3 true).2 = stOne ∧
    getRow (redeemHandler stOne "L1" "i" "u" 3 true).2.pages "L1" =
      some (stampRow 3 "i" "u" rowK1) := by
  have hn := redeem_outcome_cases stOne "nope" "i" "u" 3 true
  have hl := redeem_outcome_cases stOne "L1" "i" "u" 3 true
  have h1 : (redeemHandler stOne "nope" "i" "u" 3 true).1 =
      RedeemResult.notFound := hn.1.mpr (by decide)
  exact ⟨h1, hn.2.2.1 (Or.inl h1), hl.2.2.2 rowK1 (by decide) (by decide)⟩

/-- C5: the code violates the claim. At a concrete state where "L1" is bound
to "K1" and unconsumed, a failing `redis.del` after the commit makes the
handler answer the generic server fault instead of serving the key, while the
committed `used = true` mutation remains observable — so marker deletion is
fatal to the call, and a StoreError response coexists with a partial
mutation. -/
theorem redeem_del_failure_partial_mutation :
    (redeemHandler stOne "L1" "9.9.9.9" "UA" 5 false).1 =
      RedeemResult.serverError ∧
    rowUsed (redeemHandler stOne "L1" "9.9.9.9" "UA" 5 false).2 "L1" = true := by
  decide

/-- C10: a popped empty-string key trips the JavaScript falsiness check
`if (!poppedKey)`, so the handler answers "No keys available" exactly as for
an empty pool: no ledger row is created, no link is returned, and the
empty-string key has nevertheless been removed from the pool. -/
theorem empty_string_key_unredeemable (st : ServerState) (fresh : String)
    (now : Nat) (markerOk : Bool) (h : "" ∈ st.pool) :
    (claimHandler st (some "") fresh now markerOk).1 = ClaimResult.noKeys ∧
    (claimHandler st (some "") fresh now markerOk).2.pages = st.pages ∧
    (claimHandler st (some "") fresh now markerOk).2.pool = st.pool.erase "" :=
  ⟨by simp [claimHandler], by simp [claimHandler], by simp [claimHandler]⟩

/-- Witness for C10 at the concrete state whose pool is `[""]`. -/
theorem empty_string_key_unredeemable_w :
    ("" ∈ stEmptyKey.pool) ∧
    (claimHandler stEmptyKey (some "") "F" 0 true).1 = ClaimResult.noKeys ∧
    (claimHandler stEmptyKey (some "") "F" 0 true).2.pages = stEmptyKey.pages := by
  have h := empty_string_key_unredeemable stEmptyKey "F" 0 true (by decide)
  exact ⟨by decide, h.1, h.2.1⟩

/-- C3 counterexample: with the nonempty pool `[""]` and a valid `sPop`
result, issue() still reports "No keys available" — so "fails with
NoInventory if and only if the Pool is empty" is false on the code. -/
theorem issue_noInventory_with_nonempty_pool :
    ("" ∈ stEmptyKey.pool) ∧ stEmptyKey.pool ≠ [] ∧
    (claimHandler stEmptyKey (some "") "F1" 0 true).1 = ClaimResult.noKeys := by
  decide

/-- C3 (amended): issue() removes exactly the popped entry from the Pool;
on success (a redirect) the returned link id is the freshly generated one,
previously unbound, and a ledger row with `consumed = false` binds it to the
popped key; and it reports NoInventory iff the Pool is empty or the popped
entry is the empty string. -/
theorem issue_pop_bind_spec (st : ServerState) (popped : Option String)
    (fresh : String) (now : Nat) (markerOk : Bool) (h : sPopOk st.pool popped) :
    (∀ k, popped = some k →
      (claimHandler st popped fresh now markerOk).2.pool = st.pool.erase k ∧
      k ∈ st.pool) ∧
    (popped = none →
      (claimHandler st popped fresh now markerOk).2 = st ∧ st.pool = []) ∧
    ((claimHandler st popped fresh now markerOk).1 = ClaimResult.noKeys ↔
      st.pool = [] ∨ popped = some "") ∧
    (∀ pid, (claimHandler st popped fresh now markerOk).1 =
        ClaimResult.redirect pid →
      pid = fresh ∧ getRow st.pages fresh = none ∧
      ∃ k, popped = some k ∧
        getRow (claimHandler st popped fresh now markerOk).2.pages fresh =
          some ⟨k, now, false, none, none, none⟩) := by
  cases popped with
  | none =>
    have hp : st.pool = [] := h
    exact ⟨fun k hk => by simp at hk,
           fun _ => ⟨by simp [claimHandler], hp⟩,
           by simp [claimHandler, hp],
           fun pid hc => by simp [claimHandler] at hc⟩
  | some k =>
    have hk : k ∈ st.pool := h
    have hpne : st.pool ≠ [] := by
      intro hc
      rw [hc] at hk
      simp at hk
    refine ⟨?_, fun hc => by simp at hc, ?_, ?_⟩
    · intro k' hk'
      rw [Option.some_inj] at hk'
      subst hk'
      refine ⟨?_, hk⟩
      by_cases hke : k = ""
      · simp [claimHandler, hke]
      · by_cases hf : (getRow st.pages fresh).isSome = true
        · simp [claimHandler, hke, hf]
        · by_cases hm : markerOk <;> simp [claimHandler, hke, hf, hm]
    · by_cases hke : k = ""
      · subst hke
        simp [claimHandler]
      · constructor
        · intro hres
          exfalso
          by_cases hf : (getRow st.pages fresh).isSome = true
          · simp [claimHandler, hke, hf] at hres
          · by_cases hm : markerOk <;> simp [claimHandler, hke, hf, hm] at hres
        · intro hdisj
          rcases hdisj with hp | hs
          · exact (hpne hp).elim
          · rw [Option.some_inj] at hs
            exact (hke hs).elim
    · intro pid hres
      by_cases hke : k = ""
      · subst hke
        simp [claimHandler] at hres
      · by_cases hf : (getRow st.pages fresh).isSome = true
        · simp [claimHandler, hke, hf] at hres
        · by_cases hm : markerOk
          · have hpid : fresh = pid := by
              simpa [claimHandler, hke, hf, hm] using hres
            have hfnone : getRow st.pages fresh = none := by
              cases hg : getRow st.pages fresh with
              | none => rfl
              | some r => rw [hg] at hf; simp at hf
            have happ := getRow_append_none
              [(fresh, (⟨k, now, false, none, none, none⟩ : IssuedRow))] hfnone
            refine ⟨hpid.symm, hfnone, k, rfl, ?_⟩
            simp [claimHandler, hke, hf, hm, happ, getRow]
          · simp [claimHandler, hke, hf, hm] at hres

/-- Witness for C3 (amended) at `stOne`: popping "K1" erases it from the
pool, the call does not report NoInventory, and the redirect target "L2" is
bound to "K1" in a fresh unconsumed ledger row. -/
theorem issue_pop_bind_spec_w :
    (claimHandler stOne (some "K1") "L2" 4 true).2.pool =
      stOne.pool.erase "K1" ∧
    ¬ (claimHandler stOne (some "K1") "L2" 4 true).1 = ClaimResult.noKeys ∧
    getRow (claimHandler stOne (some "K1") "L2" 4 true).2.pages "L2" =
      some ⟨"K1", 4, false, none, none, none⟩ := by
  have h := issue_pop_bind_spec stOne (some "K1") "L2" 4 true
    (show "K1" ∈ stOne.pool by decide)
  refine ⟨(h.1 "K1" rfl).1, fun hc => ?_, ?_⟩
  · rcases h.2.2.1.mp hc with h1 | h2
    · exact absurd h1 (by decide)
    · exact absurd h2 (by decide)
  · obtain ⟨-, -, k, hkk, hrow⟩ := h.2.2.2 "L2" (by decide)
    rw [Option.some_inj] at hkk
    subst hkk
    exact hrow

/-- C6 counterexample: at a concrete state, when marker creation
(`redis.setEx`) fails after the insert, the catch-all makes issue() answer
the generic server fault — the caller does not receive the link id — even
though the IssuedLink row for "L2" has been durably persisted. -/
theorem issue_marker_failure_not_success :
    (claimHandler stOne (some "K1") "L2" 3 false).1 = ClaimResult.serverError ∧
    getRow (claimHandler stOne (some "K1") "L2" 3 false).2.pages "L2" =
      some ⟨"K1", 3, false, none, none, none⟩ := by
  decide

/-- C6 (amended): if ExpiryMarker creation fails after the IssuedLink row
has been persisted, the issue() call reports a server fault and returns no
link id; the IssuedLink row remains persisted with `consumed = false` and
the key stays removed from the Pool. -/
theorem issue_marker_failure_spec (st : ServerState) (k fresh : String)
    (now : Nat) (hk : k ≠ "") (hfresh : getRow st.pages fresh = none) :
    (claimHandler st (some k) fresh now false).1 = ClaimResult.serverError ∧
    getRow (claimHandler st (some k) fresh now false).2.pages fresh =
      some ⟨k, now, false, none, none, none⟩ ∧
    (claimHandler st (some k) fresh now false).2.pool = st.pool.erase k := by
  have hf : (getRow st.pages fresh).isSome = false := by simp [hfresh]
  have happ := getRow_append_none
    [(fresh, (⟨k, now, false, none, none, none⟩ : IssuedRow))] hfresh
  exact ⟨by simp [claimHandler, hk, hf],
         by simp [claimHandler, hk, hf, happ, getRow],
         by simp [claimHandler, hk, hf]⟩

/-- Witness for C6 (amended) at `stOne` with the fresh id "L2". -/
theorem issue_marker_failure_spec_w :
    (claimHandler stOne (some "K1") "L2" 3 false).2.pool =
      stOne.pool.erase "K1" :=
  (issue_marker_failure_spec stOne "K1" "L2" 3 (by decide) (by decide)).2.2

/-- C7: every non-deprecated catalog key value is in the Pool after a
refill, and whenever an issue() that popped that value succeeds with a
redirect and the redemption of the resulting link serves a key, the served
key is exactly the original catalog value. -/
theorem seed_issue_redeem_roundtrip (st : ServerState)
    (t v fresh pid w a b : String) (now t2 : Nat) (markerOk delOk : Bool)
    (hcat : (v, false) ∈ st.keysCatalog)
    (htok : st.adminToken = some t) (ht : t ≠ "") :
    v ∈ (seedRedis st (some t) none).2.pool ∧
    ((claimHandler (seedRedis st (some t) none).2 (some v) fresh now
        markerOk).1 = ClaimResult.redirect pid →
     (redeemHandler (claimHandler (seedRedis st (some t) none).2 (some v)
        fresh now markerOk).2 pid a b t2 delOk).1 = RedeemResult.served w →
     w = v) := by
  have htok' : tokenOk (jsOr (some t) none) st.adminToken = true := by
    simp [jsOr, ht, tokenOk, htok]
  have hmemf : (v, false) ∈ st.keysCatalog.filter (fun p => !p.2) :=
    List.mem_filter.mpr ⟨hcat, by simp⟩
  have hrows_ne : (st.keysCatalog.filter (fun p => !p.2)).isEmpty = false := by
    cases hcase : st.keysCatalog.filter (fun p => !p.2) with
    | nil => rw [hcase] at hmemf; simp at hmemf
    | cons x xs => simp
  have hpool : (seedRedis st (some t) none).2.pool =
      addAll st.pool (st.keysCatalog.filter (fun p => !p.2)) := by
    simp [seedRedis, htok', hrows_ne]
  constructor
  · rw [hpool, mem_addAll]
    exact Or.inr (mem_filter_map_fst.mpr hcat)
  · intro hredir hserved
    by_cases hv : v = ""
    · rw [hv] at hredir
      simp [claimHandler] at hredir
    · by_cases hf : (getRow (seedRedis st (some t) none).2.pages fresh).isSome = true
      · simp [claimHandler, hv, hf] at hredir
      · by_cases hm : markerOk
        · have hpid : fresh = pid := by
            simpa [claimHandler, hv, hf, hm] using hredir
          subst hpid
          have hfnone : getRow (seedRedis st (some t) none).2.pages fresh = none := by
            cases hg : getRow (seedRedis st (some t) none).2.pages fresh with
            | none => rfl
            | some r => rw [hg] at hf; simp at hf
          have happ := getRow_append_none
            [(fresh, (⟨v, now, false, none, none, none⟩ : IssuedRow))] hfnone
          have hget : getRow (claimHandler (seedRedis st (some t) none).2
              (some v) fresh now markerOk).2.pages fresh =
              some ⟨v, now, false, none, none, none⟩ := by
            simp [claimHandler, hv, hf, hm, happ, getRow]
          by_cases hd : delOk = true
          · have hserv : (redeemHandler (claimHandler (seedRedis st (some t)
                none).2 (some v) fresh now markerOk).2 fresh a b t2 delOk).1 =
                RedeemResult.served v := by
              simp [redeemHandler, hget, hd]
            rw [hserv] at hserved
            injection hserved with hw
            exact hw.symm
          · simp [redeemHandler, hget, hd] at hserved
        · simp [claimHandler, hv, hf, hm] at hredir

/-- Witness for C7 at `stOne`: after seeding, "K1" is in the pool, and the
issue/redeem pair over the fresh link "L2" serves exactly "K1". -/
theorem seed_issue_redeem_roundtrip_w :
    "K1" ∈ (seedRedis stOne (some "T") none).2.pool ∧ ("K1" : String) = "K1" := by
  have h := seed_issue_redeem_roundtrip stOne "T" "K1" "L2" "L2" "K1"
    "ip" "ua" 1 2 true true (by decide) rfl (by decide)
  exact ⟨h.1, h.2 (by decide) (by decide)⟩

/-- C8: an authorized refill gives the Pool set semantics — afterwards a
value is in the Pool iff it was already there or is a non-deprecated catalog
value (duplicate inserts are no-ops, not errors) — and running the refill a
second time returns the same response and leaves the state identical. -/
theorem refill_idempotent (st : ServerState) (h b : Option String)
    (hauth : tokenOk (jsOr h b) st.adminToken = true) :
    (∀ v, v ∈ (seedRedis st h b).2.pool ↔
      v ∈ st.pool ∨ (v, false) ∈ st.keysCatalog) ∧
    seedRedis (seedRedis st h b).2 h b = seedRedis st h b := by
  by_cases he : (st.keysCatalog.filter (fun p => !p.2)).isEmpty = true
  · have hrows : st.keysCatalog.filter (fun p => !p.2) = [] := by
      cases hcase : st.keysCatalog.filter (fun p => !p.2) with
      | nil => rfl
      | cons x xs => rw [hcase] at he; simp at he
    constructor
    · intro v
      have hnone : ¬ (v, false) ∈ st.keysCatalog := by
        intro hc
        have hmf : (v, false) ∈ st.keysCatalog.filter (fun p => !p.2) :=
          List.mem_filter.mpr ⟨hc, by simp⟩
        rw [hrows] at hmf
        simp at hmf
      simp [seedRedis, hauth, he, hnone]
    · have hst : (seedRedis st h b).2 = st := by simp [seedRedis, hauth, he]
      rw [hst]
  · have he' : (st.keysCatalog.filter (fun p => !p.2)).isEmpty = false := by
      cases hcase : (st.keysCatalog.filter (fun p => !p.2)).isEmpty with
      | false => rfl
      | true => exact (he hcase).elim
    have hidem : addAll (addAll st.pool (st.keysCatalog.filter (fun p => !p.2)))
        (st.keysCatalog.filter (fun p => !p.2)) =
        addAll st.pool (st.keysCatalog.filter (fun p => !p.2)) :=
      addAll_of_all_mem (fun r hr =>
        (mem_addAll _ _).mpr (Or.inr (List.mem_map_of_mem Prod.fst hr)))
    constructor
    · intro v
      rw [show (seedRedis st h b).2.pool =
          addAll st.pool (st.keysCatalog.filter (fun p => !p.2)) from by
        simp [seedRedis, hauth, he']]
      rw [mem_addAll, mem_filter_map_fst]
    · simp [seedRedis, hauth, he', hidem]

/-- Witness for C8 at `stOne` with the valid admin token "T". -/
theorem refill_idempotent_w :
    "K1" ∈ (seedRedis stOne (some "T") none).2.pool ∧
    seedRedis (seedRedis stOne (some "T") none).2 (some "T") none =
      seedRedis stOne (some "T") none := by
  have h := refill_idempotent stOne (some "T") none (by decide)
  exact ⟨(h.1 "K1").mpr (Or.inl (by decide)), h.2⟩

/-- C9: an admin refill or admin inspect request whose credential is absent
or different from the configured admin token is answered 401 unauthorized
and leaves the entire state — Pool and Ledger included — untouched. -/
theorem admin_unauthorized_untouched (st : ServerState) (h b hi : Option String)
    (hseed : jsOr h b = none ∨ ∃ t, jsOr h b = some t ∧ st.adminToken ≠ some t)
    (hins : hi = none ∨ ∃ t, hi = some t ∧ st.adminToken ≠ some t) :
    seedRedis st h b = (SeedResult.unauthorized, st) ∧
    adminIssued st hi = (InspectResult.unauthorized, st) := by
  have h1 := tokenOk_false_of_bad hseed
  have h2 := tokenOk_false_of_bad hins
  exact ⟨by simp [seedRedis, h1], by simp [adminIssued, h2]⟩

/-- Witness for C9: a wrong token "X" on seeding and a missing token on
inspect are both rejected at `stOne` without any state change. -/
theorem admin_unauthorized_untouched_w :
    seedRedis stOne (some "X") none = (SeedResult.unauthorized, stOne) ∧
    adminIssued stOne none = (InspectResult.unauthorized, stOne) :=
  admin_unauthorized_untouched stOne (some "X") none none
    (Or.inr ⟨"X", by decide, by decide⟩) (Or.inl rfl)

end KeyServer
